import Mathlib

/- Verification of the Monte Carlo portfolio simulation core
   (Monte_Carlo_simulation_csv.py), shallowly embedded over the reals.

   Numeric code is modelled with real arithmetic: numpy arrays become
   functions or lists, `np.exp`/`np.log`/`np.sqrt` become `Real.exp`,
   `Real.log`, `Real.sqrt`, and the global numpy random stream becomes an
   explicit stream `u : ℕ → ℝ` of uniform draws together with a cursor
   position that each call to `np.random.rand` advances. -/

namespace MonteCarlo

/-- `arr.mean()` for a 1-D numpy array: sum divided by length.
    (On the empty array numpy yields NaN; over ℝ the division is by zero.) -/
noncomputable def np_mean (xs : List ℝ) : ℝ := xs.sum / xs.length

/-- `arr.var()` for a 1-D numpy array (default `ddof=0`): mean squared
    deviation from the mean, dividing by the number of elements. -/
noncomputable def np_var (xs : List ℝ) : ℝ :=
  (xs.map (fun x => (x - np_mean xs) ^ 2)).sum / xs.length

/-- `arr.std()` for a 1-D numpy array: square root of `np_var`. -/
noncomputable def np_std (xs : List ℝ) : ℝ := Real.sqrt (np_var xs)

/-- `calculate_log_returns(opens)`:
    `np.log(np.array(opens[1:]) / np.array(opens[:-1]))` — the elementwise
    log of the ratio of each price to its predecessor. -/
noncomputable def calculate_log_returns (opens : List ℝ) : List ℝ :=
  (opens.tail.zip opens.dropLast).map fun p => Real.log (p.1 / p.2)

/-- `drift = u - (0.5 * var)` computed from the log-return sample
    (lines 63–65 of the source). -/
noncomputable def drift_of (log_returns : List ℝ) : ℝ :=
  np_mean log_returns - 0.5 * np_var log_returns

/-- `np.random.rand(days, trials)` against an explicit uniform stream `u`
    with cursor `s`: returns the `days × trials` grid read row-major from
    the stream, and the advanced cursor. -/
def numpy_rand (u : ℕ → ℝ) (s : ℕ) (days trials : ℕ) :
    (ℕ → ℕ → ℝ) × ℕ :=
  (fun t k => u (s + t * trials + k), s + days * trials)

/-- `daily_returns = np.exp(drift + stdev * Z)` (line 70). -/
noncomputable def daily_returns (drift stdev : ℝ) (Z : ℕ → ℕ → ℝ) :
    ℕ → ℕ → ℝ :=
  fun t k => Real.exp (drift + stdev * Z t k)

/-- The price-path recurrence (lines 73–77): row 0 is the current price for
    every trial, and `price_paths[t] = price_paths[t-1] * daily_returns[t]`
    for `t ≥ 1`. -/
noncomputable def price_paths (current_price : ℝ) (dr : ℕ → ℕ → ℝ) :
    ℕ → ℕ → ℝ
  | 0, _ => current_price
  | t + 1, k => price_paths current_price dr t k * dr (t + 1) k

/-- `monte_carlo_simulation_single_stock` (lines 61–89), plotting omitted.
    Consumes `days·trials` uniforms from the stream `u` starting at cursor
    `s` (via `np.random.rand(days, trials)`), transforms them by the
    normal quantile function `ppf` (`norm.ppf`), simulates the paths and
    returns `(portfolio_values, individual_stock_returns)` together with
    the advanced stream cursor. -/
noncomputable def monte_carlo_simulation_single_stock
    (trials days : ℕ) (log_returns : List ℝ)
    (current_price initial_investment : ℝ)
    (ppf : ℝ → ℝ) (u : ℕ → ℝ) (s : ℕ) :
    ((ℕ → ℝ) × (ℕ → ℝ)) × ℕ :=
  let drift := drift_of log_returns
  let stdev := np_std log_returns
  let rand := numpy_rand u s days trials
  let Z := fun t k => ppf (rand.1 t k)
  let paths := price_paths current_price (daily_returns drift stdev Z)
  let final_prices := fun k => paths (days - 1) k
  let portfolio_values :=
    fun k => final_prices k * (initial_investment / current_price)
  let individual_stock_returns :=
    fun k => ((final_prices k - current_price) / current_price) * 100
  ((portfolio_values, individual_stock_returns), rand.2)

/-- The accumulation loop of `monte_carlo_simulation_portfolio`
    (lines 125–132): for each stock, compute its scaled terminal-value
    vector and add it to the accumulator grid.  numpy broadcasting makes
    `portfolio_values += stock_portfolio_values` add the 1-D vector to
    every day row of the `days × trials` grid.  `i` is the enumeration
    index (for `weights[i]`) and `s` the random-stream cursor. -/
noncomputable def portfolio_loop (weights : List ℝ) (trials days : ℕ)
    (initial_investment : ℝ) (ppf : ℝ → ℝ) (u : ℕ → ℝ) :
    List (List ℝ) → ℕ → ℕ → (ℕ → ℕ → ℝ) → (ℕ → ℕ → ℝ)
  | [], _, _, pv => pv
  | opens :: rest, i, s, pv =>
      let res := monte_carlo_simulation_single_stock trials days
        (calculate_log_returns opens) ((opens.getLast?).getD 0)
        (initial_investment * weights.getD i 0) ppf u s
      portfolio_loop weights trials days initial_investment ppf u
        rest (i + 1) res.2 (fun t k => pv t k + (res.1).1 k)

/-- `monte_carlo_simulation_portfolio` (lines 117–144), I/O and plotting
    omitted: `stocks` is the list of per-stock open-price series already
    loaded from the CSV files; the accumulator starts as
    `np.zeros((days, trials))` and the random cursor at the start of the
    stream.  Returns the `portfolio_values` grid. -/
noncomputable def monte_carlo_simulation_portfolio
    (stocks : List (List ℝ)) (weights : List ℝ) (trials days : ℕ)
    (initial_investment : ℝ) (ppf : ℝ → ℝ) (u : ℕ → ℝ) :
    ℕ → ℕ → ℝ :=
  portfolio_loop weights trials days initial_investment ppf u
    stocks 0 0 (fun _ _ => 0)

lemma calculate_log_returns_length (opens : List ℝ) :
    (calculate_log_returns opens).length = opens.length - 1 := by
  simp [calculate_log_returns]

lemma calculate_log_returns_getD (opens : List ℝ) (t : ℕ)
    (h : t + 1 < opens.length) :
    (calculate_log_returns opens).getD t 0
      = Real.log (opens.getD (t + 1) 0 / opens.getD t 0) := by
  have hm : t < (calculate_log_returns opens).length := by
    rw [calculate_log_returns_length]; omega
  have h1 : t < opens.tail.length := by simp [List.length_tail]; omega
  have h2 : t < opens.dropLast.length := by simp [List.length_dropLast]; omega
  rw [calculate_log_returns] at hm ⊢
  rw [List.getD_eq_getElem?_getD, List.getElem?_eq_getElem hm, Option.getD_some,
      List.getElem_map, List.getElem_zip, List.getElem_tail, List.getElem_dropLast,
      List.getD_eq_getElem?_getD, List.getD_eq_getElem?_getD,
      List.getElem?_eq_getElem (show t + 1 < opens.length by omega),
      List.getElem?_eq_getElem (show t < opens.length by omega),
      Option.getD_some, Option.getD_some]

/-- Claim C3: for N ≥ 2 prices the return estimation yields exactly N−1
    log-return samples `r_t = ln(price_t / price_{t-1})`; the variance is the
    population variance of those N−1 samples (denominator N−1, not N−2),
    the standard deviation is its square root, and the drift is
    mean − 0.5·variance. -/
theorem log_return_statistics (opens : List ℝ) (hN : 2 ≤ opens.length) :
    (calculate_log_returns opens).length = opens.length - 1 ∧
    (∀ t, t + 1 < opens.length →
      (calculate_log_returns opens).getD t 0
        = Real.log (opens.getD (t + 1) 0 / opens.getD t 0)) ∧
    np_var (calculate_log_returns opens)
      = ((calculate_log_returns opens).map
            (fun r => (r - np_mean (calculate_log_returns opens)) ^ 2)).sum
          / ((opens.length - 1 : ℕ) : ℝ) ∧
    np_std (calculate_log_returns opens)
      = Real.sqrt (np_var (calculate_log_returns opens)) ∧
    drift_of (calculate_log_returns opens)
      = np_mean (calculate_log_returns opens)
        - 0.5 * np_var (calculate_log_returns opens) := by
  refine ⟨calculate_log_returns_length opens,
    fun t ht => calculate_log_returns_getD opens t ht, ?_, rfl, rfl⟩
  simp only [np_var, calculate_log_returns_length]

theorem log_return_statistics_witness :
    2 ≤ ([1, Real.exp 1] : List ℝ).length ∧
    (calculate_log_returns [1, Real.exp 1]).length
      = ([1, Real.exp 1] : List ℝ).length - 1 ∧
    (calculate_log_returns [1, Real.exp 1]).getD 0 0
      = Real.log (([1, Real.exp 1] : List ℝ).getD 1 0
          / ([1, Real.exp 1] : List ℝ).getD 0 0) ∧
    drift_of (calculate_log_returns [1, Real.exp 1])
      = np_mean (calculate_log_returns [1, Real.exp 1])
        - 0.5 * np_var (calculate_log_returns [1, Real.exp 1]) := by
  have h := log_return_statistics [1, Real.exp 1] (by norm_num)
  exact ⟨by norm_num, h.1, h.2.1 0 (by norm_num), h.2.2.2.2⟩

/-- Claim C2: with days ≥ 1, trials ≥ 1 and a positive current price, the
    simulated path matrix has `Path[0][k] = currentPrice` for every trial k
    (no randomness at day 0), and for every `t ∈ [1, days)` and trial k,
    `Path[t][k] = Path[t-1][k] · exp(drift + stdev · Z[t][k])`: the price of each day
    depends only on the prior-day price for the same trial. -/
theorem day0_anchor_and_recurrence (current_price drift stdev : ℝ)
    (Z : ℕ → ℕ → ℝ) (days trials : ℕ)
    (hdays : 1 ≤ days) (htrials : 1 ≤ trials) (hcp : 0 < current_price) :
    (∀ k < trials,
      price_paths current_price (daily_returns drift stdev Z) 0 k
        = current_price) ∧
    (∀ t, 1 ≤ t → t < days → ∀ k < trials,
      price_paths current_price (daily_returns drift stdev Z) t k
        = price_paths current_price (daily_returns drift stdev Z) (t - 1) k
            * Real.exp (drift + stdev * Z t k)) := by
  refine ⟨fun k _ => rfl, fun t ht _ k _ => ?_⟩
  cases t with
  | zero => omega
  | succ s => rfl

theorem day0_anchor_and_recurrence_witness :
    price_paths 100 (daily_returns 0 0 (fun _ _ => 0)) 0 0 = 100 ∧
    price_paths 100 (daily_returns 0 0 (fun _ _ => 0)) 1 0
      = price_paths 100 (daily_returns 0 0 (fun _ _ => 0)) (1 - 1) 0
          * Real.exp (0 + 0 * 0) :=
  ⟨(day0_anchor_and_recurrence 100 0 0 (fun _ _ => 0) 2 1 (by norm_num)
      (by norm_num) (by norm_num)).1 0 (by norm_num),
   (day0_anchor_and_recurrence 100 0 0 (fun _ _ => 0) 2 1 (by norm_num)
      (by norm_num) (by norm_num)).2 1 (by norm_num) (by norm_num) 0
      (by norm_num)⟩

/-- Claim C5: starting from a positive current price, every entry of the
    price-path grid is strictly positive — no zero or negative entries
    appear anywhere in the ensemble. -/
theorem paths_strictly_positive (current_price drift stdev : ℝ)
    (Z : ℕ → ℕ → ℝ) (days trials : ℕ) (hcp : 0 < current_price) :
    ∀ t < days, ∀ k < trials,
      0 < price_paths current_price (daily_returns drift stdev Z) t k := by
  have key : ∀ t k,
      0 < price_paths current_price (daily_returns drift stdev Z) t k := by
    intro t
    induction t with
    | zero => exact fun _ => hcp
    | succ s ih => exact fun k => mul_pos (ih k) (Real.exp_pos _)
  exact fun t _ k _ => key t k

theorem paths_strictly_positive_witness :
    (0:ℝ) < 100 ∧
    0 < price_paths 100 (daily_returns 0 0 (fun _ _ => 0)) 1 0 :=
  ⟨by norm_num,
   paths_strictly_positive 100 0 0 (fun _ _ => 0) 2 1 (by norm_num) 1
     (by norm_num) 0 (by norm_num)⟩

/-- Claim C9: with currentPrice = 100, days = 2, trials = 1, drift = 0,
    stdev = 0 and every normal variate Z equal to 0, the simulated path is
    flat: Path = [100, 100]. -/
theorem flat_path_scenario :
    price_paths 100 (daily_returns 0 0 (fun _ _ => 0)) 0 0 = 100 ∧
    price_paths 100 (daily_returns 0 0 (fun _ _ => 0)) 1 0 = 100 := by
  constructor
  · rfl
  · show price_paths 100 (daily_returns 0 0 (fun _ _ => 0)) 0 0
        * daily_returns 0 0 (fun _ _ => 0) 1 0 = 100
    simp [price_paths, daily_returns]

/-- Claim C8: the per-asset percentage-return sequence is
    `(terminal − current)/current × 100` per trial, the terminal prices
    being the last row (index days−1) of the price-path ensemble of the asset. -/
theorem individual_returns_formula (trials days : ℕ) (log_returns : List ℝ)
    (current_price initial_investment : ℝ) (ppf : ℝ → ℝ) (u : ℕ → ℝ)
    (s : ℕ) (hdays : 1 ≤ days) : ∀ k < trials,
    ((monte_carlo_simulation_single_stock trials days log_returns
        current_price initial_investment ppf u s).1).2 k
      = ((price_paths current_price
            (daily_returns (drift_of log_returns) (np_std log_returns)
              (fun t k2 => ppf (u (s + t * trials + k2)))) (days - 1) k
          - current_price) / current_price) * 100 :=
  fun _ _ => rfl

theorem individual_returns_formula_witness :
    ((monte_carlo_simulation_single_stock 1 2 [] 100 1000 (fun x => x)
        (fun _ => 0) 0).1).2 0
      = ((price_paths 100
            (daily_returns (drift_of []) (np_std []) (fun _ _ => 0)) (2 - 1) 0
          - 100) / 100) * 100 :=
  individual_returns_formula 1 2 [] 100 1000 (fun x => x) (fun _ => 0) 0
    (by norm_num) 0 (by norm_num)

lemma price_paths_congr (cp : ℝ) (dr dr2 : ℕ → ℕ → ℝ) (k T : ℕ)
    (h : ∀ t, 1 ≤ t → t ≤ T → dr t k = dr2 t k) :
    ∀ t ≤ T, price_paths cp dr t k = price_paths cp dr2 t k := by
  intro t
  induction t with
  | zero => exact fun _ => rfl
  | succ s ih =>
      intro hle
      show price_paths cp dr s k * dr (s + 1) k
          = price_paths cp dr2 s k * dr2 (s + 1) k
      rw [ih (by omega), h (s + 1) (by omega) hle]

/-- Claim C4 counterexample: with days = 2 and trials = 3 the single-stock
    simulator advances the uniform random stream by days·trials = 6 draws
    (`np.random.rand(days, trials)`), not (days−1)·trials = 3 as claimed. -/
theorem rand_consumption_counterexample :
    (monte_carlo_simulation_single_stock 3 2 [] 100 1000 (fun x => x)
        (fun _ => 0) 0).2 = 6 ∧ (6 : ℕ) ≠ (2 - 1) * 3 :=
  ⟨rfl, by norm_num⟩

/-- Claim C4 amended: the simulator consumes days·trials uniform draws —
    the stream cursor advances by days·trials — each transformed by the
    normal quantile function; but only the (days−1)·trials draws with day
    index t ∈ [1, days), stream positions [s+trials, s+days·trials), affect
    the outputs: the day-0 row of Z is drawn and discarded. -/
theorem rand_consumption_and_dependence (trials days : ℕ)
    (log_returns : List ℝ) (current_price initial_investment : ℝ)
    (ppf : ℝ → ℝ) (u v : ℕ → ℝ) (s : ℕ)
    (huv : ∀ j, s + trials ≤ j → j < s + days * trials → u j = v j) :
    (monte_carlo_simulation_single_stock trials days log_returns
        current_price initial_investment ppf u s).2 = s + days * trials ∧
    ∀ k < trials,
      ((monte_carlo_simulation_single_stock trials days log_returns
          current_price initial_investment ppf u s).1).1 k
        = ((monte_carlo_simulation_single_stock trials days log_returns
          current_price initial_investment ppf v s).1).1 k ∧
      ((monte_carlo_simulation_single_stock trials days log_returns
          current_price initial_investment ppf u s).1).2 k
        = ((monte_carlo_simulation_single_stock trials days log_returns
          current_price initial_investment ppf v s).1).2 k := by
  refine ⟨rfl, fun k hk => ?_⟩
  have hpaths : price_paths current_price
      (daily_returns (drift_of log_returns) (np_std log_returns)
        (fun t k2 => ppf (u (s + t * trials + k2)))) (days - 1) k
      = price_paths current_price
      (daily_returns (drift_of log_returns) (np_std log_returns)
        (fun t k2 => ppf (v (s + t * trials + k2)))) (days - 1) k := by
    refine price_paths_congr _ _ _ k (days - 1) (fun t ht1 ht2 => ?_)
      (days - 1) le_rfl
    have htt : trials ≤ t * trials := Nat.le_mul_of_pos_left trials (by omega)
    have htop : t * trials + k < days * trials := by
      cases days with
      | zero => omega
      | succ d =>
          have h1 : t * trials ≤ d * trials :=
            Nat.mul_le_mul_right trials (by omega)
          have h2 : (d + 1) * trials = d * trials + trials :=
            Nat.succ_mul d trials
          omega
    have := huv (s + t * trials + k) (by omega) (by omega)
    simp only [daily_returns, this]
  exact ⟨congrArg (fun P => P * (initial_investment / current_price)) hpaths,
    congrArg (fun P => ((P - current_price) / current_price) * 100) hpaths⟩

theorem rand_consumption_and_dependence_witness :
    (monte_carlo_simulation_single_stock 1 2 [] 100 1000 (fun x => x)
        (fun _ => 0) 0).2 = 0 + 2 * 1 ∧
    ((monte_carlo_simulation_single_stock 1 2 [] 100 1000 (fun x => x)
        (fun _ => 0) 0).1).1 0
      = ((monte_carlo_simulation_single_stock 1 2 [] 100 1000 (fun x => x)
        (fun _ => 0) 0).1).1 0 :=
  ⟨(rand_consumption_and_dependence 1 2 [] 100 1000 (fun x => x)
      (fun _ => 0) (fun _ => 0) 0 (fun _ _ _ => rfl)).1,
   ((rand_consumption_and_dependence 1 2 [] 100 1000 (fun x => x)
      (fun _ => 0) (fun _ => 0) 0 (fun _ _ _ => rfl)).2 0 (by norm_num)).1⟩

lemma mc_single_values (trials days : ℕ) (lr : List ℝ) (cp inv : ℝ)
    (ppf : ℝ → ℝ) (u : ℕ → ℝ) (s k : ℕ) :
    ((monte_carlo_simulation_single_stock trials days lr cp inv
        ppf u s).1).1 k
      = price_paths cp
          (daily_returns (drift_of lr) (np_std lr)
            (fun t k2 => ppf (u (s + t * trials + k2)))) (days - 1) k
        * (inv / cp) := rfl

lemma mc_single_cursor (trials days : ℕ) (lr : List ℝ) (cp inv : ℝ)
    (ppf : ℝ → ℝ) (u : ℕ → ℝ) (s : ℕ) :
    (monte_carlo_simulation_single_stock trials days lr cp inv
        ppf u s).2 = s + days * trials := rfl

lemma portfolio_loop_closed_form (weights : List ℝ) (trials days : ℕ)
    (inv : ℝ) (ppf : ℝ → ℝ) (u : ℕ → ℝ) :
    ∀ (stocks : List (List ℝ)) (i s : ℕ) (pv : ℕ → ℕ → ℝ) (t k : ℕ),
      portfolio_loop weights trials days inv ppf u stocks i s pv t k
        = pv t k + ∑ j ∈ Finset.range stocks.length,
            ((monte_carlo_simulation_single_stock trials days
                (calculate_log_returns (stocks.getD j []))
                (((stocks.getD j []).getLast?).getD 0)
                (inv * weights.getD (i + j) 0) ppf u
                (s + j * (days * trials))).1).1 k := by
  intro stocks
  induction stocks with
  | nil => intro i s pv t k; simp [portfolio_loop]
  | cons opens rest ih =>
      intro i s pv t k
      show portfolio_loop weights trials days inv ppf u rest (i + 1)
          (s + days * trials)
          (fun t k => pv t k
            + ((monte_carlo_simulation_single_stock trials days
                (calculate_log_returns opens) ((opens.getLast?).getD 0)
                (inv * weights.getD i 0) ppf u s).1).1 k) t k = _
      rw [ih]
      simp only [List.length_cons]
      rw [Finset.sum_range_succ']
      have hz : ∀ j : ℕ,
          ((opens :: rest).getD (j + 1) []) = rest.getD j [] := fun _ => rfl
      simp only [hz, List.getD_cons_zero]
      have harith : ∀ j : ℕ, (i + 1) + j = i + (j + 1) := fun j => by omega
      have harith2 : ∀ j : ℕ,
          (s + days * trials) + j * (days * trials)
            = s + (j + 1) * (days * trials) := fun j => by ring
      have hsum : ∀ j ∈ Finset.range rest.length,
          ((monte_carlo_simulation_single_stock trials days
              (calculate_log_returns (rest.getD j []))
              (((rest.getD j []).getLast?).getD 0)
              (inv * weights.getD ((i + 1) + j) 0) ppf u
              ((s + days * trials) + j * (days * trials))).1).1 k
            = ((monte_carlo_simulation_single_stock trials days
              (calculate_log_returns (rest.getD j []))
              (((rest.getD j []).getLast?).getD 0)
              (inv * weights.getD (i + (j + 1)) 0) ppf u
              (s + (j + 1) * (days * trials))).1).1 k := fun j _ => by
        rw [harith j, harith2 j]
      rw [Finset.sum_congr rfl hsum]
      simp only [Nat.add_zero, Nat.zero_mul]
      ring

lemma np_mean_single (x : ℝ) : np_mean [x] = x := by
  simp [np_mean]

lemma np_var_single (x : ℝ) : np_var [x] = 0 := by
  simp [np_var, np_mean]

lemma np_std_single (x : ℝ) : np_std [x] = 0 := by
  rw [np_std, np_var_single, Real.sqrt_zero]

lemma drift_of_single (x : ℝ) : drift_of [x] = x := by
  rw [drift_of, np_var_single, np_mean_single]; ring

lemma calculate_log_returns_pair (a b : ℝ) :
    calculate_log_returns [a, b] = [Real.log (b / a)] := rfl

lemma getD_map_mul (c : ℝ) (ws : List ℝ) (j : ℕ) :
    (ws.map (fun w => c * w)).getD j 0 = c * ws.getD j 0 := by
  rw [List.getD_eq_getElem?_getD, List.getD_eq_getElem?_getD,
      List.getElem?_map]
  cases h : ws[j]? with
  | none => simp
  | some x => simp

/-- Claim C10: every day row of the accumulated portfolio-value grid is
    identical: for all days t, t2 and every trial k the grid holds the sum
    over assets of the terminal (last-day) price scaled by
    allocation/currentPrice — numpy broadcasting adds the 1-D per-asset
    scaled terminal vector to every day row, so the grid carries only the
    terminal-value distribution replicated over every day. -/
theorem portfolio_rows_identical (stocks : List (List ℝ)) (weights : List ℝ)
    (trials days : ℕ) (inv : ℝ) (ppf : ℝ → ℝ) (u : ℕ → ℝ) (t t2 k : ℕ)
    (ht : t < days) (ht2 : t2 < days) (hk : k < trials) :
    monte_carlo_simulation_portfolio stocks weights trials days inv ppf u t k
      = monte_carlo_simulation_portfolio stocks weights trials days inv
          ppf u t2 k ∧
    monte_carlo_simulation_portfolio stocks weights trials days inv ppf u t k
      = ∑ j ∈ Finset.range stocks.length,
          price_paths (((stocks.getD j []).getLast?).getD 0)
            (daily_returns
              (drift_of (calculate_log_returns (stocks.getD j [])))
              (np_std (calculate_log_returns (stocks.getD j [])))
              (fun t3 k3 => ppf (u (j * (days * trials) + t3 * trials + k3))))
            (days - 1) k
          * (inv * weights.getD j 0
              / (((stocks.getD j []).getLast?).getD 0)) := by
  have hform : ∀ t4 : ℕ,
      monte_carlo_simulation_portfolio stocks weights trials days inv
          ppf u t4 k
        = ∑ j ∈ Finset.range stocks.length,
            price_paths (((stocks.getD j []).getLast?).getD 0)
              (daily_returns
                (drift_of (calculate_log_returns (stocks.getD j [])))
                (np_std (calculate_log_returns (stocks.getD j [])))
                (fun t3 k3 =>
                  ppf (u (j * (days * trials) + t3 * trials + k3))))
              (days - 1) k
            * (inv * weights.getD j 0
                / (((stocks.getD j []).getLast?).getD 0)) := by
    intro t4
    rw [monte_carlo_simulation_portfolio, portfolio_loop_closed_form]
    simp only [mc_single_values, Nat.zero_add, zero_add]
  exact ⟨(hform t).trans (hform t2).symm, hform t⟩

theorem portfolio_rows_identical_witness :
    monte_carlo_simulation_portfolio [[100, 200]] [1] 1 2 1000 (fun x => x)
        (fun _ => 0) 0 0
      = monte_carlo_simulation_portfolio [[100, 200]] [1] 1 2 1000
        (fun x => x) (fun _ => 0) 1 0 :=
  (portfolio_rows_identical [[100, 200]] [1] 1 2 1000 (fun x => x)
      (fun _ => 0) 0 1 0 (by norm_num) (by norm_num) (by norm_num)).1

/-- Claim C1 counterexample: a single-asset portfolio (weights [1], total
    initial investment 1000) whose historical prices [100, 200] give a
    deterministic doubling return: the produced PortfolioValueEnsemble
    holds 2000 at day 0, trial 0 — the scaled terminal value — not the
    total initial investment 1000. -/
theorem portfolio_day0_counterexample :
    monte_carlo_simulation_portfolio [[100, 200]] [1] 1 2 1000 (fun x => x)
        (fun _ => 0) 0 0 = 2000 ∧ (2000 : ℝ) ≠ 1000 := by
  refine ⟨?_, by norm_num⟩
  have h1 : monte_carlo_simulation_portfolio [[100, 200]] [1] 1 2 1000
      (fun x => x) (fun _ => 0) 0 0
      = 0 + price_paths 200
          (daily_returns (drift_of (calculate_log_returns [100, 200]))
            (np_std (calculate_log_returns [100, 200])) (fun _ _ => 0)) 1 0
        * (1000 * 1 / 200) := rfl
  have h2 : ∀ dr : ℕ → ℕ → ℝ, price_paths 200 dr 1 0 = 200 * dr 1 0 :=
    fun _ => rfl
  rw [h1, calculate_log_returns_pair, h2]
  simp only [daily_returns]
  rw [drift_of_single, np_std_single]
  norm_num [Real.exp_log]

/-- Claim C1 amended: the day-0 row of the PortfolioValueEnsemble produced
    by the aggregation equals, for every trial k, the sum over assets of the
    terminal (last-day) price scaled by allocation/currentPrice — not the
    total initial investment; the expression
    `Σ_i Path_i[0][k]·(allocation_i/price_i)` itself does equal the sum of
    the per-asset allocations (the total initial investment), since
    `Path_i[0][k] = price_i`, but the implemented aggregation broadcasts
    scaled terminal rows and never produces it. -/
theorem portfolio_day0_value (stocks : List (List ℝ)) (weights : List ℝ)
    (trials days : ℕ) (inv : ℝ) (ppf : ℝ → ℝ) (u : ℕ → ℝ) (k : ℕ)
    (hk : k < trials) (hdays : 1 ≤ days)
    (hcp : ∀ j < stocks.length, (((stocks.getD j []).getLast?).getD 0) ≠ 0) :
    monte_carlo_simulation_portfolio stocks weights trials days inv ppf u 0 k
      = ∑ j ∈ Finset.range stocks.length,
          price_paths (((stocks.getD j []).getLast?).getD 0)
            (daily_returns
              (drift_of (calculate_log_returns (stocks.getD j [])))
              (np_std (calculate_log_returns (stocks.getD j [])))
              (fun t3 k3 => ppf (u (j * (days * trials) + t3 * trials + k3))))
            (days - 1) k
          * (inv * weights.getD j 0
              / (((stocks.getD j []).getLast?).getD 0)) ∧
    ∑ j ∈ Finset.range stocks.length,
        price_paths (((stocks.getD j []).getLast?).getD 0)
          (daily_returns
            (drift_of (calculate_log_returns (stocks.getD j [])))
            (np_std (calculate_log_returns (stocks.getD j [])))
            (fun t3 k3 => ppf (u (j * (days * trials) + t3 * trials + k3))))
          0 k
        * (inv * weights.getD j 0
            / (((stocks.getD j []).getLast?).getD 0))
      = ∑ j ∈ Finset.range stocks.length, inv * weights.getD j 0 := by
  constructor
  · rw [monte_carlo_simulation_portfolio, portfolio_loop_closed_form]
    simp only [mc_single_values, Nat.zero_add, zero_add]
  · refine Finset.sum_congr rfl fun j hj => ?_
    have hj2 : j < stocks.length := Finset.mem_range.mp hj
    show (((stocks.getD j []).getLast?).getD 0)
        * (inv * weights.getD j 0 / (((stocks.getD j []).getLast?).getD 0))
      = inv * weights.getD j 0
    rw [mul_comm, div_mul_cancel₀ _ (hcp j hj2)]

theorem portfolio_day0_value_witness :
    0 < 1 ∧ 1 ≤ 2 ∧
    ∑ j ∈ Finset.range ([[(100:ℝ), 200]] : List (List ℝ)).length,
        price_paths (((([[(100:ℝ), 200]] : List (List ℝ)).getD j
                []).getLast?).getD 0)
          (daily_returns
            (drift_of (calculate_log_returns
              (([[(100:ℝ), 200]] : List (List ℝ)).getD j [])))
            (np_std (calculate_log_returns
              (([[(100:ℝ), 200]] : List (List ℝ)).getD j [])))
            (fun t3 k3 =>
              (fun x => x) ((fun _ => (0:ℝ)) (j * (2 * 1) + t3 * 1 + k3))))
          0 0
        * (1000 * (([1] : List ℝ).getD j 0)
            / (((([[(100:ℝ), 200]] : List (List ℝ)).getD j
                []).getLast?).getD 0))
      = ∑ j ∈ Finset.range ([[(100:ℝ), 200]] : List (List ℝ)).length,
          1000 * (([1] : List ℝ).getD j 0) :=
  ⟨by norm_num, by norm_num,
   (portfolio_day0_value [[100, 200]] [1] 1 2 1000 (fun x => x) (fun _ => 0)
      0 (by norm_num) (by norm_num)
      (by
        intro j hj
        simp only [List.length_cons, List.length_nil] at hj
        interval_cases j
        show (200:ℝ) ≠ 0
        norm_num)).2⟩

/-- Claim C7 counterexample: a run with a single asset and weights [0.5]
    (weight sum 0.5, far from 1.0) surfaces no error at all: the portfolio
    pipeline computes the definite value 500 = 0.5·1000 — it silently uses
    the supplied weight, allocating weight·investment. -/
theorem weight_mismatch_counterexample :
    monte_carlo_simulation_portfolio [[100, 100]] [0.5] 1 2 1000 (fun x => x)
        (fun _ => 0) 0 0 = 500 ∧ ([0.5] : List ℝ).sum ≠ 1 := by
  refine ⟨?_, by norm_num⟩
  have h1 : monte_carlo_simulation_portfolio [[100, 100]] [0.5] 1 2 1000
      (fun x => x) (fun _ => 0) 0 0
      = 0 + price_paths 100
          (daily_returns (drift_of (calculate_log_returns [100, 100]))
            (np_std (calculate_log_returns [100, 100])) (fun _ _ => 0)) 1 0
        * (1000 * 0.5 / 100) := rfl
  have h2 : ∀ dr : ℕ → ℕ → ℝ, price_paths 100 dr 1 0 = 100 * dr 1 0 :=
    fun _ => rfl
  rw [h1, calculate_log_returns_pair, h2]
  simp only [daily_returns]
  rw [drift_of_single, np_std_single]
  norm_num [Real.log_one, Real.exp_zero]

/-- Claim C7 amended: the core performs no weight validation and surfaces
    no WeightMismatch error; the supplied weights pass into the allocations
    `weight_i · initial_investment` exactly as given and are never
    renormalized — scaling every weight by a constant c scales every
    portfolio value by c. -/
theorem weights_not_renormalized (stocks : List (List ℝ)) (weights : List ℝ)
    (trials days : ℕ) (inv c : ℝ) (ppf : ℝ → ℝ) (u : ℕ → ℝ) (t k : ℕ) :
    monte_carlo_simulation_portfolio stocks (weights.map (fun w => c * w))
        trials days inv ppf u t k
      = c * monte_carlo_simulation_portfolio stocks weights trials days inv
          ppf u t k := by
  rw [monte_carlo_simulation_portfolio, monte_carlo_simulation_portfolio,
      portfolio_loop_closed_form, portfolio_loop_closed_form]
  simp only [mc_single_values, zero_add]
  rw [Finset.mul_sum]
  refine Finset.sum_congr rfl fun j hj => ?_
  rw [getD_map_mul]
  ring

/-- Claim C6, the code evaluated at the failing input: with a single valid
    price the log-return sample is empty, yet nothing fails — numpy takes
    mean/var/std of the empty array (NaN plus a RuntimeWarning; 0/0 in this
    real-valued model) and the pipeline proceeds to simulate, still
    anchoring day 0 of the path grid at the current price.  No
    InsufficientData error exists anywhere in the code. -/
theorem insufficient_data_no_error :
    calculate_log_returns [100] = [] ∧
    price_paths 100
        (daily_returns (drift_of (calculate_log_returns [100]))
          (np_std (calculate_log_returns [100])) (fun _ _ => 0)) 0 0
      = 100 :=
  ⟨rfl, rfl⟩

end MonteCarlo
